import Mathlib

set_option allowUnsafeReducibility true
attribute [semireducible] Rat.mul Rat.inv Rat.add Rat.sub Rat.ofScientific

/-!
Shallow embedding of the prediction pipeline of `app/main.py`
(repository `personal-inflation-impact`).

Python floats are modelled as exact rationals (`ℚ`); the distinguished
non-numeric float `nan` appears only where the code can produce it
(the `Headline` default in `predict`), via the type `PFloat`.
Python exceptions are modelled with `Except Err`:
`Err.valueError` is the `ValueError`/`TypeError` raised by `float(...)`
on a non-numeric value, `Err.keyError` the `KeyError` raised by a
missing column lookup `latest[c]`.
The two trained model artifacts are opaque: they are parameters
(`Artifacts`) mapping a feature row to a scalar, exactly as the code
treats the loaded `CLF`, `REG` and `THR`.
-/

deriving instance DecidableEq for Except

namespace PII

/-- The six fixed budget categories, `CATS` in `app/main.py`. -/
inductive Category : Type
  | Food
  | Housing
  | Transport
  | Health
  | Recreation
  | Misc
deriving DecidableEq, Fintype, Repr

/-- The canonical category order: `CATS = ['Food', 'Housing', 'Transport', 'Health', 'Recreation', 'Misc']`. -/
def CATS : List Category :=
  [.Food, .Housing, .Transport, .Health, .Recreation, .Misc]

/-- The string key each category has in the Python dicts / CSV columns. -/
def catName : Category → String
  | .Food => "Food"
  | .Housing => "Housing"
  | .Transport => "Transport"
  | .Health => "Health"
  | .Recreation => "Recreation"
  | .Misc => "Misc"

/-- A raw value in the caller-supplied weights dict: either something
`float(...)` accepts (numbers, numeric strings, booleans — all modelled by
their numeric value) or something it rejects. -/
inductive RawVal : Type
  | num (q : ℚ)
  | malformed
deriving DecidableEq, Repr

/-- A Python float: either `nan` or a (finite) numeric value. -/
inductive PFloat : Type
  | nan
  | num (q : ℚ)
deriving DecidableEq, Repr

/-- Python exceptions the pipeline can raise. -/
inductive Err : Type
  | valueError
  | keyError (k : String)
deriving DecidableEq, Repr

/-- `float(v)` on a raw dict value: numeric values convert, anything else
raises (modelled as `Err.valueError`). -/
def pyFloat : RawVal → Except Err ℚ
  | .num q => .ok q
  | .malformed => .error .valueError

/-- Sequential effectful map over a list, propagating the first error —
the evaluation order of a Python generator / dict comprehension. -/
def seqMap {α β : Type} (f : α → Except Err β) : List α → Except Err (List β)
  | [] => .ok []
  | a :: l => do
    let b ← f a
    let bs ← seqMap f l
    pure (b :: bs)

/-- Python `max(0.0, v)` on numeric values: `v` when positive, else `0`. -/
def pmax0 (v : ℚ) : ℚ :=
  if v ≤ 0 then 0 else v

/-- `max(0.0, float(raw.get(c, 0)))` for one category `c`. -/
def clampedQ (raw : String → Option RawVal) (c : Category) : Except Err ℚ := do
  let v ← pyFloat ((raw (catName c)).getD (RawVal.num 0))
  pure (pmax0 v)

/-- `normalize_weights` of `app/main.py`:

    def normalize_weights(raw: dict) -> dict:
        raw = raw or \x7b\x7d
        s = sum(max(0.0, float(raw.get(c, 0))) for c in CATS) or 1.0
        return \x7bc: max(0.0, float(raw.get(c, 0))) / s for c in CATS\x7d

The input dict is a partial map `String → Option RawVal` (`raw or \x7b\x7d`
only replaces a `None`/empty input by the empty dict, which the partial-map
type already covers).  The `or 1.0` replaces a zero sum by `1.0`.  The
returned dict has exactly the six fixed categories as keys, so it is a
total function `Category → ℚ`; since every `Category` occurs in `CATS`,
the successfully-computed clamped value is recovered pointwise (the
`getD 0` fallback is unreachable once the sum has been computed without
raising). -/
def normalize_weights (raw : String → Option RawVal) : Except Err (Category → ℚ) := do
  let vals ← seqMap (clampedQ raw) CATS
  let s0 := vals.sum
  let s := if s0 = 0 then 1 else s0
  pure (fun c => ((clampedQ raw c).toOption.getD 0) / s)

/-- `float(latest[c])`: a missing column raises `KeyError`; a present float
value (possibly `nan`) is returned unchanged by `float`. -/
def getCol (latest : String → Option PFloat) (c : Category) : Except Err PFloat :=
  match latest (catName c) with
  | some v => .ok v
  | none => .error (.keyError (catName c))

/-- `make_features` of `app/main.py`:

    def make_features(latest, w_norm):
        row = \x7bc: float(latest[c]) for c in CATS\x7d
        row.update(\x7bf'w_\x7bc\x7d': w_norm[c] for c in CATS\x7d)
        return pd.DataFrame([row])[FEATS]

`FEATS = CATS + [f'w_\x7bc\x7d' for c in CATS]`, so selecting the `FEATS`
columns of the one-row frame yields the six index values in category order
followed by the six normalized weights in the same order. -/
def make_features (latest : String → Option PFloat) (w_norm : Category → ℚ) :
    Except Err (List PFloat) := do
  let idx ← seqMap (getCol latest) CATS
  pure (idx ++ CATS.map (fun c => PFloat.num (w_norm c)))

/-- The latest index row, as `predict` consumes it: its columns (the six
categories plus `Headline`, possibly others) and the `strftime('%b %Y')`
rendering of its `date`. -/
structure IndexRecord : Type where
  vals : String → Option PFloat
  dateStr : String

/-- The loaded model artifacts: `CLF` (through
`float(CLF.predict_proba(X)[:, 1][0])`), `REG` (through
`float(REG.predict(X)[0])`) and the stored threshold `THR`.  The models are
opaque functions of the feature row. -/
structure Artifacts : Type where
  clfProba : List PFloat → ℚ
  regPredict : List PFloat → ℚ
  thr : ℚ

/-- Round-half-even to the nearest integer, Python 3's `round` tie rule.
The fractional part `q - ⌊q⌋` equals `(q.num - ⌊q⌋ * q.den) / q.den`, so
comparing it with `1/2` is comparing `2 * (q.num - ⌊q⌋ * q.den)` with
`q.den`; the comparison is done on integers so the function evaluates by
kernel reduction. -/
def rhe (q : ℚ) : ℤ :=
  let f := q.floor
  let twiceFrac := 2 * (q.num - f * (q.den : ℤ))
  if twiceFrac < (q.den : ℤ) then f
  else if (q.den : ℤ) < twiceFrac then f + 1
  else if f % 2 = 0 then f else f + 1

/-- `round(q, d)` on a finite float, modelled exactly over ℚ. -/
def roundTo (q : ℚ) (d : ℕ) : ℚ :=
  (rhe (q * 10 ^ d) : ℚ) / 10 ^ d

/-- `round(x, d)` on a possibly-`nan` float: `round(nan, d)` is `nan`. -/
def pyRound (x : PFloat) (d : ℕ) : PFloat :=
  match x with
  | .nan => .nan
  | .num q => .num (roundTo q d)

/-- The dict returned by the `/predict` endpoint. -/
structure PredictionResult : Type where
  latest_headline_cpih_pct : PFloat
  latest_month : String
  forecast_personal_inflation_pct : ℚ
  risk_probability : ℚ
  threshold : ℚ
  risk_flag : String
  weights_normalized : Category → ℚ
deriving DecidableEq

/-- `predict` of `app/main.py` (the `latest_row()` result is the
`last : IndexRecord` parameter; artifact loading happened at startup):

    def predict(payload: dict):
        w = normalize_weights(payload)
        last = latest_row()
        X = make_features(last, w)
        proba = float(CLF.predict_proba(X)[:, 1][0])
        flag = 'HIGH' if proba >= THR else 'LOW'
        yhat = float(REG.predict(X)[0])
        return \x7b ... \x7d -/
def predict (A : Artifacts) (last : IndexRecord) (payload : String → Option RawVal) :
    Except Err PredictionResult := do
  let w ← normalize_weights payload
  let X ← make_features last.vals w
  let proba := A.clfProba X
  let flag := if proba ≥ A.thr then "HIGH" else "LOW"
  let yhat := A.regPredict X
  pure {
    latest_headline_cpih_pct := pyRound ((last.vals "Headline").getD PFloat.nan) 2
    latest_month := last.dateStr
    forecast_personal_inflation_pct := roundTo yhat 2
    risk_probability := roundTo proba 4
    threshold := roundTo A.thr 3
    risk_flag := flag
    weights_normalized := w }

/-- The classifier probability `predict` computes for a payload, before
rounding (`float(CLF.predict_proba(X)[:, 1][0])`). -/
def computedProba (A : Artifacts) (last : IndexRecord)
    (payload : String → Option RawVal) : Except Err ℚ := do
  let w ← normalize_weights payload
  let X ← make_features last.vals w
  pure (A.clfProba X)

/-- The regressor forecast `predict` computes for a payload, before
rounding (`float(REG.predict(X)[0])`). -/
def computedYhat (A : Artifacts) (last : IndexRecord)
    (payload : String → Option RawVal) : Except Err ℚ := do
  let w ← normalize_weights payload
  let X ← make_features last.vals w
  pure (A.regPredict X)

/-- The value `normalize_weights`'s dict comprehension computes for one
category when no exception was raised: `max(0.0, float(raw.get(c, 0)))`. -/
def clampD (raw : String → Option RawVal) (c : Category) : ℚ :=
  (clampedQ raw c).toOption.getD 0

/-- The clamped total `sum(max(0.0, float(raw.get(c, 0))) for c in CATS)`. -/
def clampSum (raw : String → Option RawVal) : ℚ :=
  (CATS.map (clampD raw)).sum

/-- The divisor `normalize_weights` uses: the clamped total, or `1` when the
total is zero (`... or 1.0`). -/
def normDiv (raw : String → Option RawVal) : ℚ :=
  if clampSum raw = 0 then 1 else clampSum raw

/-- The inverse of `catName`: which fixed category (if any) a string key names. -/
def strToCat (s : String) : Option Category :=
  if s = "Food" then some .Food
  else if s = "Housing" then some .Housing
  else if s = "Transport" then some .Transport
  else if s = "Health" then some .Health
  else if s = "Recreation" then some .Recreation
  else if s = "Misc" then some .Misc
  else none

/-- A normalized weight map re-packaged as a raw payload dict (the dict
`normalize_weights` returns has exactly the six category names as keys). -/
def mapToRaw (w : Category → ℚ) : String → Option RawVal := fun s =>
  (strToCat s).map (fun c => RawVal.num (w c))

/-- A string-keyed map with one key removed. -/
def dropKey {β : Type} (f : String → Option β) (k : String) : String → Option β :=
  fun s => if s = k then none else f s

/-- A payload with a non-numeric value for `Food` (e.g. `\x7b'Food': 'abc'\x7d`):
`float('abc')` raises `ValueError`. -/
def badPayload : String → Option RawVal := fun s =>
  if s = "Food" then some RawVal.malformed else none

/-- The spec's example payload: `\x7bHousing: 35, Food: 25, Transport: 15, Health: 5, Recreation: 8, Misc: 12\x7d`. -/
def goodPayload : String → Option RawVal := fun s =>
  if s = "Housing" then some (RawVal.num 35)
  else if s = "Food" then some (RawVal.num 25)
  else if s = "Transport" then some (RawVal.num 15)
  else if s = "Health" then some (RawVal.num 5)
  else if s = "Recreation" then some (RawVal.num 8)
  else if s = "Misc" then some (RawVal.num 12)
  else none

/-- A payload whose present entries are zero or negative (rest absent). -/
def zeroPayload : String → Option RawVal := fun s =>
  if s = "Food" then some (RawVal.num 0)
  else if s = "Housing" then some (RawVal.num (-3))
  else none

/-- `goodPayload` plus an entry under a key outside the fixed category set. -/
def extraPayload : String → Option RawVal := fun s =>
  if s = "Gadgets" then some (RawVal.num 50) else goodPayload s

/-- Per-category index values of the sample record. -/
def sampleIdx : Category → PFloat
  | .Food => .num 2
  | .Housing => .num 3
  | .Transport => .num 1
  | .Health => .num 4
  | .Recreation => .num 2
  | .Misc => .num 1

/-- A concrete latest index row with all six categories and a headline. -/
def sampleRecord : IndexRecord where
  vals := fun s =>
    if s = "Headline" then some (PFloat.num 5)
    else (strToCat s).map sampleIdx
  dateStr := "Jan 2025"

/-- A concrete record lacking most categories (only `Food` present). -/
def gappyVals : String → Option PFloat := fun s =>
  if s = "Food" then some (PFloat.num 2) else none

/-- Concrete opaque model artifacts for witnesses. -/
def sampleArtifacts : Artifacts where
  clfProba := fun _ => 3 / 4
  regPredict := fun _ => 2
  thr := 1 / 2

/-- The normalized weights of `goodPayload` (total 100). -/
def goodW : Category → ℚ
  | .Food => 1 / 4
  | .Housing => 7 / 20
  | .Transport => 3 / 20
  | .Health => 1 / 20
  | .Recreation => 2 / 25
  | .Misc => 3 / 25

/-- The result `predict sampleArtifacts sampleRecord goodPayload` returns. -/
def sampleResult : PredictionResult where
  latest_headline_cpih_pct := .num 5
  latest_month := "Jan 2025"
  forecast_personal_inflation_pct := 2
  risk_probability := 3 / 4
  threshold := 1 / 2
  risk_flag := "HIGH"
  weights_normalized := goodW

/-- The feature row built from `sampleRecord` and `goodW`. -/
def sampleX : List PFloat :=
  CATS.map sampleIdx ++ CATS.map (fun c => PFloat.num (goodW c))

theorem ok_bind {α β : Type} (a : α) (f : α → Except Err β) :
    (Except.ok a >>= f) = f a := rfl

theorem error_bind {α β : Type} (e : Err) (f : α → Except Err β) :
    ((Except.error e : Except Err α) >>= f) = .error e := rfl

theorem mem_CATS (c : Category) : c ∈ CATS := by
  cases c <;> simp [CATS]

theorem seqMap_ok_of_forall {α β : Type} (f : α → Except Err β) (g : α → β) :
    ∀ l : List α, (∀ a ∈ l, f a = .ok (g a)) → seqMap f l = .ok (l.map g)
  | [], _ => rfl
  | a :: l, h => by
    have ha : f a = .ok (g a) := h a (List.mem_cons_self a l)
    have ht : seqMap f l = .ok (l.map g) :=
      seqMap_ok_of_forall f g l (fun x hx => h x (List.mem_cons_of_mem a hx))
    simp [seqMap, ha, ht, ok_bind, List.map_cons]

theorem seqMap_ok_forall {α β : Type} (f : α → Except Err β) :
    ∀ (l : List α) (bs : List β), seqMap f l = .ok bs → ∀ a ∈ l, ∃ b, f a = .ok b := by
  intro l
  induction l with
  | nil => intro bs _ a ha; exact absurd ha (List.not_mem_nil a)
  | cons x t ih =>
    intro bs hmap a ha
    cases hx : f x with
    | error e => rw [seqMap, hx, error_bind] at hmap; exact absurd hmap (by simp)
    | ok b =>
      rw [seqMap, hx, ok_bind] at hmap
      cases ht : seqMap f t with
      | error e => rw [ht, error_bind] at hmap; exact absurd hmap (by simp)
      | ok bs' =>
        rcases List.mem_cons.1 ha with rfl | hat
        · exact ⟨b, hx⟩
        · exact ih bs' ht a hat

theorem seqMap_congr {α β : Type} (f g : α → Except Err β) :
    ∀ l : List α, (∀ a ∈ l, f a = g a) → seqMap f l = seqMap g l
  | [], _ => rfl
  | a :: l, h => by
    have ha := h a (List.mem_cons_self a l)
    have ht := seqMap_congr f g l (fun x hx => h x (List.mem_cons_of_mem a hx))
    simp [seqMap, ha, ht]

theorem pmax0_nonneg (v : ℚ) : 0 ≤ pmax0 v := by
  unfold pmax0; split <;> [rfl; linarith]

theorem pmax0_of_nonneg {v : ℚ} (h : 0 ≤ v) : pmax0 v = v := by
  unfold pmax0; split <;> [linarith; rfl]

theorem pmax0_of_nonpos {v : ℚ} (h : v ≤ 0) : pmax0 v = 0 := by
  unfold pmax0; split <;> [rfl; linarith]

theorem clampedQ_none {raw : String → Option RawVal} {c : Category}
    (h : raw (catName c) = none) : clampedQ raw c = .ok 0 := by
  simp [clampedQ, h, pyFloat, pmax0_of_nonpos le_rfl]

theorem clampedQ_num {raw : String → Option RawVal} {c : Category} {q : ℚ}
    (h : raw (catName c) = some (RawVal.num q)) : clampedQ raw c = .ok (pmax0 q) := by
  simp [clampedQ, h, pyFloat]

theorem clampedQ_malformed {raw : String → Option RawVal} {c : Category}
    (h : raw (catName c) = some RawVal.malformed) :
    clampedQ raw c = .error .valueError := by
  simp [clampedQ, h, pyFloat]

theorem clampD_eq {raw : String → Option RawVal} {c : Category} {q : ℚ}
    (h : clampedQ raw c = .ok q) : clampD raw c = q := by
  simp [clampD, h, Except.toOption]

theorem clampD_nonneg (raw : String → Option RawVal) (c : Category) :
    0 ≤ clampD raw c := by
  unfold clampD clampedQ
  cases h : raw (catName c) with
  | none => simp [pyFloat, pmax0_nonneg, Except.toOption]
  | some v =>
    cases v with
    | num q => simp [pyFloat, pmax0_nonneg, Except.toOption]
    | malformed => simp [pyFloat, error_bind, Except.toOption]

theorem clampSum_nonneg (raw : String → Option RawVal) : 0 ≤ clampSum raw :=
  List.sum_nonneg (by
    intro x hx
    rcases List.mem_map.1 hx with ⟨c, _, rfl⟩
    exact clampD_nonneg raw c)

theorem normDiv_pos (raw : String → Option RawVal) : 0 < normDiv raw := by
  unfold normDiv
  split <;> [norm_num; exact lt_of_le_of_ne (clampSum_nonneg raw) (Ne.symm (by assumption))]

theorem clampD_le_clampSum (raw : String → Option RawVal) (c : Category) :
    clampD raw c ≤ clampSum raw :=
  List.single_le_sum
    (by
      intro x hx
      rcases List.mem_map.1 hx with ⟨a, _, rfl⟩
      exact clampD_nonneg raw a)
    _ (List.mem_map_of_mem (clampD raw) (mem_CATS c))

theorem normalize_eq (raw : String → Option RawVal)
    (h : ∀ c ∈ CATS, ∃ q, clampedQ raw c = .ok q) :
    normalize_weights raw = .ok (fun c => clampD raw c / normDiv raw) := by
  have hg : ∀ a ∈ CATS, clampedQ raw a = .ok (clampD raw a) := by
    intro a ha
    obtain ⟨q, hq⟩ := h a ha
    rw [hq, clampD_eq hq]
  have hs : seqMap (clampedQ raw) CATS = .ok (CATS.map (clampD raw)) :=
    seqMap_ok_of_forall _ _ _ hg
  unfold normalize_weights
  rw [hs, ok_bind]
  rfl

theorem sum_map_div {α : Type} (l : List α) (f : α → ℚ) (s : ℚ) :
    (l.map (fun a => f a / s)).sum = (l.map f).sum / s := by
  induction l with
  | nil => simp
  | cons a t ih => simp [List.map_cons, List.sum_cons, ih, add_div]

theorem numeric_clampedQ {raw : String → Option RawVal} {c : Category}
    (h : raw (catName c) = none ∨ ∃ q, raw (catName c) = some (RawVal.num q)) :
    ∃ q, clampedQ raw c = .ok q := by
  rcases h with h | ⟨q, h⟩
  · exact ⟨0, clampedQ_none h⟩
  · exact ⟨pmax0 q, clampedQ_num h⟩

/-- C3: a weight map whose six fixed-category entries are all numeric and
non-negative (absent entries count as 0), with at least one strictly
positive, normalizes to a map summing exactly to 1 with every value in
`[0, 1]`. -/
theorem normalize_weights_simplex (raw : String → Option RawVal)
    (hnum : ∀ c ∈ CATS, raw (catName c) = none ∨
      ∃ q, raw (catName c) = some (RawVal.num q) ∧ 0 ≤ q)
    (hpos : ∃ c ∈ CATS, ∃ q, raw (catName c) = some (RawVal.num q) ∧ 0 < q) :
    ∃ w, normalize_weights raw = .ok w ∧
      (CATS.map w).sum = 1 ∧ ∀ c, 0 ≤ w c ∧ w c ≤ 1 := by
  have hok : ∀ c ∈ CATS, ∃ q, clampedQ raw c = .ok q := by
    intro c hc
    refine numeric_clampedQ ?_
    rcases hnum c hc with h | ⟨q, h, _⟩
    · exact Or.inl h
    · exact Or.inr ⟨q, h⟩
  obtain ⟨c0, hc0, q0, hq0, hq0pos⟩ := hpos
  have hd0 : clampD raw c0 = q0 := by
    rw [clampD_eq (clampedQ_num hq0), pmax0_of_nonneg (le_of_lt hq0pos)]
  have hSpos : 0 < clampSum raw :=
    lt_of_lt_of_le hq0pos (hd0 ▸ clampD_le_clampSum raw c0)
  have hSne : clampSum raw ≠ 0 := ne_of_gt hSpos
  have hdiv : normDiv raw = clampSum raw := by simp [normDiv, hSne]
  refine ⟨_, normalize_eq raw hok, ?_, ?_⟩
  · rw [sum_map_div, hdiv]
    exact div_self (by rw [← clampSum]; exact hSne)
  · intro c
    constructor
    · exact div_nonneg (clampD_nonneg raw c) (le_of_lt (normDiv_pos raw))
    · rw [div_le_one (normDiv_pos raw), hdiv]
      exact clampD_le_clampSum raw c

/-- C4: a weight map every fixed-category entry of which is zero, negative
or absent normalizes to the all-zero map (the zero total is replaced by a
divisor of 1), not to an equal split. -/
theorem normalize_weights_allzero (raw : String → Option RawVal)
    (h : ∀ c ∈ CATS, raw (catName c) = none ∨
      ∃ q, raw (catName c) = some (RawVal.num q) ∧ q ≤ 0) :
    normalize_weights raw = .ok (fun _ => 0) := by
  have hz : ∀ c ∈ CATS, clampedQ raw c = .ok 0 := by
    intro c hc
    rcases h c hc with hn | ⟨q, hq, hqle⟩
    · exact clampedQ_none hn
    · rw [clampedQ_num hq, pmax0_of_nonpos hqle]
  have hd : ∀ c, clampD raw c = 0 := fun c => clampD_eq (hz c (mem_CATS c))
  have hok : ∀ c ∈ CATS, ∃ q, clampedQ raw c = .ok q := fun c hc => ⟨0, hz c hc⟩
  rw [normalize_eq raw hok]
  refine congrArg Except.ok (funext fun c => ?_)
  rw [hd c, zero_div]

theorem predict_ok_elim (A : Artifacts) (last : IndexRecord)
    (payload : String → Option RawVal) (r : PredictionResult)
    (hr : predict A last payload = .ok r) :
    ∃ w X, normalize_weights payload = .ok w ∧ make_features last.vals w = .ok X ∧
      r = { latest_headline_cpih_pct := pyRound ((last.vals "Headline").getD PFloat.nan) 2
            latest_month := last.dateStr
            forecast_personal_inflation_pct := roundTo (A.regPredict X) 2
            risk_probability := roundTo (A.clfProba X) 4
            threshold := roundTo A.thr 3
            risk_flag := if A.clfProba X ≥ A.thr then "HIGH" else "LOW"
            weights_normalized := w } := by
  unfold predict at hr
  cases hw : normalize_weights payload with
  | error e => rw [hw, error_bind] at hr; exact absurd hr (by simp)
  | ok w =>
    rw [hw, ok_bind] at hr
    cases hX : make_features last.vals w with
    | error e => rw [hX, error_bind] at hr; exact absurd hr (by simp)
    | ok X =>
      rw [hX, ok_bind] at hr
      exact ⟨w, X, rfl, hX, by injection hr with h; exact h.symm⟩

/-- C1: whenever the index record has a value for each of the six fixed
categories, `make_features` builds the feature vector of length exactly 12
whose first six entries are the record's per-category values in the
canonical order Food, Housing, Transport, Health, Recreation, Misc, and
whose last six entries are the normalized weights for the same categories
in the same order. -/
theorem make_features_shape (latest : String → Option PFloat) (w_norm : Category → ℚ)
    (f : Category → PFloat) (h : ∀ c ∈ CATS, latest (catName c) = some (f c)) :
    make_features latest w_norm =
      .ok (CATS.map f ++ CATS.map (fun c => PFloat.num (w_norm c))) ∧
    (CATS.map f ++ CATS.map (fun c => PFloat.num (w_norm c))).length = 12 := by
  have hg : ∀ c ∈ CATS, getCol latest c = .ok (f c) := by
    intro c hc
    unfold getCol
    rw [h c hc]
  have hs := seqMap_ok_of_forall (getCol latest) f CATS hg
  constructor
  · unfold make_features
    rw [hs, ok_bind]
    rfl
  · simp [CATS]

/-- C2: for every result `predict` returns, the risk flag is `HIGH` if and
only if the classifier's (unrounded) probability is at least the stored
threshold, and `LOW` otherwise. -/
theorem predict_flag_iff (A : Artifacts) (last : IndexRecord)
    (payload : String → Option RawVal) (r : PredictionResult) (p : ℚ)
    (hr : predict A last payload = .ok r)
    (hp : computedProba A last payload = .ok p) :
    r.risk_flag = "HIGH" ↔ p ≥ A.thr := by
  obtain ⟨w, X, hw, hX, hrec⟩ := predict_ok_elim A last payload r hr
  unfold computedProba at hp
  rw [hw, ok_bind, hX, ok_bind] at hp
  have hpX : p = A.clfProba X := by injection hp with h; exact h.symm
  subst hpX
  rw [hrec]
  by_cases hge : A.clfProba X ≥ A.thr
  · simp [hge]
  · simp [hge]

/-- C9: every result `predict` returns carries the regressor forecast
rounded to 2 decimal places, the classifier probability rounded to 4, and
the stored threshold rounded to 3. -/
theorem predict_rounding (A : Artifacts) (last : IndexRecord)
    (payload : String → Option RawVal) (r : PredictionResult) (p y : ℚ)
    (hr : predict A last payload = .ok r)
    (hp : computedProba A last payload = .ok p)
    (hy : computedYhat A last payload = .ok y) :
    r.forecast_personal_inflation_pct = roundTo y 2 ∧
    r.risk_probability = roundTo p 4 ∧
    r.threshold = roundTo A.thr 3 := by
  obtain ⟨w, X, hw, hX, hrec⟩ := predict_ok_elim A last payload r hr
  unfold computedProba at hp
  rw [hw, ok_bind, hX, ok_bind] at hp
  unfold computedYhat at hy
  rw [hw, ok_bind, hX, ok_bind] at hy
  have hpX : p = A.clfProba X := by injection hp with h; exact h.symm
  have hyX : y = A.regPredict X := by injection hy with h; exact h.symm
  subst hpX hyX
  rw [hrec]
  exact ⟨rfl, rfl, rfl⟩

theorem seqMap_getCol_keyError (latest : String → Option PFloat) :
    ∀ l : List Category, (∃ c ∈ l, latest (catName c) = none) →
      ∃ k, seqMap (getCol latest) l = .error (Err.keyError k)
  | [], h => absurd h (by simp)
  | a :: t, h => by
    cases ha : latest (catName a) with
    | none =>
      refine ⟨catName a, ?_⟩
      have : getCol latest a = .error (.keyError (catName a)) := by
        unfold getCol
        rw [ha]
      rw [seqMap, this, error_bind]
    | some v =>
      have hmem : ∃ c ∈ t, latest (catName c) = none := by
        rcases h with ⟨c, hc, hcn⟩
        rcases List.mem_cons.1 hc with rfl | hct
        · rw [ha] at hcn; exact absurd hcn (by simp)
        · exact ⟨c, hct, hcn⟩
      obtain ⟨k, hk⟩ := seqMap_getCol_keyError latest t hmem
      refine ⟨k, ?_⟩
      have hga : getCol latest a = .ok v := by
        unfold getCol
        rw [ha]
      rw [seqMap, hga, ok_bind, hk, error_bind]

/-- C8: when the index record lacks a value for one of the six required
categories, `make_features` fails with a `KeyError` on that category name
(the FeatureMismatch kind, a constructor distinct from `Err.valueError`)
instead of producing a feature vector. -/
theorem make_features_missing_category (latest : String → Option PFloat)
    (w_norm : Category → ℚ) (h : ∃ c ∈ CATS, latest (catName c) = none) :
    ∃ k, make_features latest w_norm = .error (Err.keyError k) ∧
      ∀ X, make_features latest w_norm ≠ .ok X := by
  obtain ⟨k, hk⟩ := seqMap_getCol_keyError latest CATS h
  have hmf : make_features latest w_norm = .error (Err.keyError k) := by
    unfold make_features
    rw [hk, error_bind]
  exact ⟨k, hmf, fun X hX => by rw [hmf] at hX; exact Except.noConfusion hX⟩

theorem strToCat_catName (c : Category) : strToCat (catName c) = some c := by
  cases c <;> decide

/-- C5 counterexample: on a payload holding a non-numeric value for `Food`,
`normalize_weights` raises (`float('abc')` → `ValueError`) instead of
treating the malformed entry as 0, so it is not total on malformed input. -/
theorem normalize_weights_raises_on_malformed :
    normalize_weights badPayload = .error Err.valueError ∧
    ¬∃ w, normalize_weights badPayload = .ok w := by
  have h : normalize_weights badPayload = .error Err.valueError := by decide
  exact ⟨h, fun ⟨w, hw⟩ => by rw [h] at hw; exact Except.noConfusion hw⟩

/-- C5 (amended): `normalize_weights` treats missing fixed-category entries
as 0 and returns a normalized map whenever every present fixed-category
entry is numeric; a non-numeric entry raises instead of degrading to 0. -/
theorem normalize_weights_total_on_numeric (raw : String → Option RawVal)
    (h : ∀ c ∈ CATS, raw (catName c) = none ∨
      ∃ q, raw (catName c) = some (RawVal.num q)) :
    ∃ w, normalize_weights raw = .ok w :=
  ⟨_, normalize_eq raw (fun c hc => numeric_clampedQ (h c hc))⟩

/-- C6: two payloads that agree on the six fixed category names produce
identical results from `normalize_weights` and from `predict`: entries
under keys outside the fixed set have no effect. -/
theorem predict_ignores_unknown_keys (A : Artifacts) (last : IndexRecord)
    (payload₁ payload₂ : String → Option RawVal)
    (h : ∀ c ∈ CATS, payload₁ (catName c) = payload₂ (catName c)) :
    normalize_weights payload₁ = normalize_weights payload₂ ∧
    predict A last payload₁ = predict A last payload₂ := by
  have hc : ∀ c, clampedQ payload₁ c = clampedQ payload₂ c := by
    intro c
    unfold clampedQ
    rw [h c (mem_CATS c)]
  have hnorm : normalize_weights payload₁ = normalize_weights payload₂ := by
    unfold normalize_weights
    rw [seqMap_congr _ _ CATS (fun a _ => hc a)]
    simp only [hc]
  refine ⟨hnorm, ?_⟩
  unfold predict
  rw [hnorm]

/-- C7: `normalize_weights` is idempotent: feeding a successfully
normalized map back in (as the raw dict it is in Python) returns exactly
the same map. -/
theorem normalize_weights_idempotent (raw : String → Option RawVal)
    (w : Category → ℚ) (h : normalize_weights raw = .ok w) :
    normalize_weights (mapToRaw w) = .ok w := by
  have hok : ∀ c ∈ CATS, ∃ q, clampedQ raw c = .ok q := by
    unfold normalize_weights at h
    cases hs : seqMap (clampedQ raw) CATS with
    | error e => rw [hs, error_bind] at h; exact absurd h (by simp)
    | ok vals => exact seqMap_ok_forall _ CATS vals hs
  have hwdef : w = fun c => clampD raw c / normDiv raw := by
    rw [normalize_eq raw hok] at h
    injection h with h
    exact h.symm
  have hw0 : ∀ c, 0 ≤ w c := by
    intro c
    rw [hwdef]
    exact div_nonneg (clampD_nonneg raw c) (le_of_lt (normDiv_pos raw))
  have hraw : ∀ c, mapToRaw w (catName c) = some (RawVal.num (w c)) := by
    intro c
    unfold mapToRaw
    rw [strToCat_catName c]
    rfl
  have hcq : ∀ c, clampedQ (mapToRaw w) c = .ok (w c) := by
    intro c
    rw [clampedQ_num (hraw c), pmax0_of_nonneg (hw0 c)]
  have hd : ∀ c, clampD (mapToRaw w) c = w c := fun c => clampD_eq (hcq c)
  have hsum : clampSum (mapToRaw w) = clampSum raw / normDiv raw := by
    unfold clampSum
    rw [List.map_congr_left (fun c _ => hd c), hwdef, sum_map_div]
  have hnd : normDiv (mapToRaw w) = 1 := by
    unfold normDiv
    rw [hsum]
    by_cases hS : clampSum raw = 0
    · rw [hS, zero_div]
      simp
    · have : normDiv raw = clampSum raw := by simp [normDiv, hS]
      rw [this, div_self hS]
      simp
  rw [normalize_eq (mapToRaw w) (fun c _ => ⟨w c, hcq c⟩), hnd]
  refine congrArg Except.ok (funext fun c => ?_)
  rw [hd c, div_one]

/-- C10: when the latest record's `Headline` column is removed, `predict`
still succeeds and returns the same result except that
`latest_headline_cpih_pct` is the NaN default. -/
theorem predict_missing_headline (A : Artifacts) (last : IndexRecord)
    (payload : String → Option RawVal) (r : PredictionResult)
    (hr : predict A last payload = .ok r) :
    predict A ⟨dropKey last.vals "Headline", last.dateStr⟩ payload =
      .ok { r with latest_headline_cpih_pct := PFloat.nan } := by
  obtain ⟨w, X, hw, hX, hrec⟩ := predict_ok_elim A last payload r hr
  have hcols : ∀ c ∈ CATS, getCol (dropKey last.vals "Headline") c = getCol last.vals c := by
    intro c _
    unfold getCol dropKey
    have hne : catName c ≠ "Headline" := by cases c <;> decide
    rw [if_neg hne]
  have hmf : make_features (dropKey last.vals "Headline") w = make_features last.vals w := by
    unfold make_features
    rw [seqMap_congr _ _ CATS hcols]
  unfold predict
  rw [show (⟨dropKey last.vals "Headline", last.dateStr⟩ : IndexRecord).vals =
        dropKey last.vals "Headline" from rfl,
      hw, ok_bind, hmf, hX, ok_bind, hrec]
  have hdrop : dropKey last.vals "Headline" "Headline" = none := by
    unfold dropKey
    rw [if_pos rfl]
  simp [hdrop, pyRound]
  rfl

theorem goodPayload_numeric_nonneg : ∀ c ∈ CATS, goodPayload (catName c) = none ∨
    ∃ q, goodPayload (catName c) = some (RawVal.num q) ∧ 0 ≤ q := by
  intro c _
  cases c
  · exact Or.inr ⟨25, by decide, by decide⟩
  · exact Or.inr ⟨35, by decide, by decide⟩
  · exact Or.inr ⟨15, by decide, by decide⟩
  · exact Or.inr ⟨5, by decide, by decide⟩
  · exact Or.inr ⟨8, by decide, by decide⟩
  · exact Or.inr ⟨12, by decide, by decide⟩

theorem goodPayload_numeric : ∀ c ∈ CATS, goodPayload (catName c) = none ∨
    ∃ q, goodPayload (catName c) = some (RawVal.num q) := by
  intro c hc
  exact (goodPayload_numeric_nonneg c hc).imp_right (fun ⟨q, hq, _⟩ => ⟨q, hq⟩)

theorem zeroPayload_nonpos : ∀ c ∈ CATS, zeroPayload (catName c) = none ∨
    ∃ q, zeroPayload (catName c) = some (RawVal.num q) ∧ q ≤ 0 := by
  intro c _
  cases c
  · exact Or.inr ⟨0, by decide, by decide⟩
  · exact Or.inr ⟨-3, by decide, by decide⟩
  · exact Or.inl (by decide)
  · exact Or.inl (by decide)
  · exact Or.inl (by decide)
  · exact Or.inl (by decide)

theorem sample_norm : normalize_weights goodPayload = .ok goodW := by
  rw [normalize_eq goodPayload (fun c hc => numeric_clampedQ (goodPayload_numeric c hc))]
  refine congrArg Except.ok (funext fun c => ?_)
  cases c <;> decide

theorem sample_mf : make_features sampleRecord.vals goodW = .ok sampleX := by
  decide

theorem sample_predict :
    predict sampleArtifacts sampleRecord goodPayload = .ok sampleResult := by
  unfold predict
  rw [sample_norm, ok_bind, sample_mf, ok_bind]
  rfl

theorem sample_proba :
    computedProba sampleArtifacts sampleRecord goodPayload = .ok (3 / 4) := by
  unfold computedProba
  rw [sample_norm, ok_bind, sample_mf, ok_bind]
  rfl

theorem sample_yhat :
    computedYhat sampleArtifacts sampleRecord goodPayload = .ok 2 := by
  unfold computedYhat
  rw [sample_norm, ok_bind, sample_mf, ok_bind]
  rfl

/-- Witness for C1: concrete record with all six categories present. -/
theorem make_features_shape_witness :
    (∀ c ∈ CATS, sampleRecord.vals (catName c) = some (sampleIdx c)) ∧
    (make_features sampleRecord.vals goodW =
      .ok (CATS.map sampleIdx ++ CATS.map (fun c => PFloat.num (goodW c))) ∧
     (CATS.map sampleIdx ++ CATS.map (fun c => PFloat.num (goodW c))).length = 12) :=
  ⟨by decide, make_features_shape sampleRecord.vals goodW sampleIdx (by decide)⟩

/-- Witness for C2: concrete prediction with probability 3/4 and threshold 1/2. -/
theorem predict_flag_iff_witness :
    predict sampleArtifacts sampleRecord goodPayload = .ok sampleResult ∧
    computedProba sampleArtifacts sampleRecord goodPayload = .ok (3 / 4) ∧
    (sampleResult.risk_flag = "HIGH" ↔ (3 / 4 : ℚ) ≥ sampleArtifacts.thr) :=
  ⟨sample_predict, sample_proba,
    predict_flag_iff sampleArtifacts sampleRecord goodPayload sampleResult (3 / 4)
      sample_predict sample_proba⟩

/-- Witness for C3: the spec's example payload (total 100). -/
theorem normalize_weights_simplex_witness :
    (∀ c ∈ CATS, goodPayload (catName c) = none ∨
      ∃ q, goodPayload (catName c) = some (RawVal.num q) ∧ 0 ≤ q) ∧
    (∃ c ∈ CATS, ∃ q, goodPayload (catName c) = some (RawVal.num q) ∧ 0 < q) ∧
    ∃ w, normalize_weights goodPayload = .ok w ∧
      (CATS.map w).sum = 1 ∧ ∀ c, 0 ≤ w c ∧ w c ≤ 1 :=
  ⟨goodPayload_numeric_nonneg, ⟨.Food, by decide, 25, by decide, by decide⟩,
    normalize_weights_simplex goodPayload goodPayload_numeric_nonneg
      ⟨.Food, by decide, 25, by decide, by decide⟩⟩

/-- Witness for C4: a payload of one zero and one negative entry. -/
theorem normalize_weights_allzero_witness :
    (∀ c ∈ CATS, zeroPayload (catName c) = none ∨
      ∃ q, zeroPayload (catName c) = some (RawVal.num q) ∧ q ≤ 0) ∧
    normalize_weights zeroPayload = .ok (fun _ => 0) :=
  ⟨zeroPayload_nonpos, normalize_weights_allzero zeroPayload zeroPayload_nonpos⟩

/-- Witness for the amended C5: an all-numeric payload normalizes without error. -/
theorem normalize_weights_total_on_numeric_witness :
    (∀ c ∈ CATS, goodPayload (catName c) = none ∨
      ∃ q, goodPayload (catName c) = some (RawVal.num q)) ∧
    ∃ w, normalize_weights goodPayload = .ok w :=
  ⟨goodPayload_numeric, normalize_weights_total_on_numeric goodPayload goodPayload_numeric⟩

/-- Witness for C6: `extraPayload` adds a `Gadgets` entry to `goodPayload`. -/
theorem predict_ignores_unknown_keys_witness :
    (∀ c ∈ CATS, goodPayload (catName c) = extraPayload (catName c)) ∧
    (normalize_weights goodPayload = normalize_weights extraPayload ∧
     predict sampleArtifacts sampleRecord goodPayload =
       predict sampleArtifacts sampleRecord extraPayload) :=
  ⟨by decide, predict_ignores_unknown_keys sampleArtifacts sampleRecord goodPayload
      extraPayload (by decide)⟩

/-- Witness for C7: renormalizing the normalized `goodPayload` map. -/
theorem normalize_weights_idempotent_witness :
    normalize_weights goodPayload = .ok goodW ∧
    normalize_weights (mapToRaw goodW) = .ok goodW :=
  ⟨sample_norm, normalize_weights_idempotent goodPayload goodW sample_norm⟩

/-- Witness for C8: a record lacking the `Housing` column. -/
theorem make_features_missing_category_witness :
    (∃ c ∈ CATS, gappyVals (catName c) = none) ∧
    ∃ k, make_features gappyVals goodW = .error (Err.keyError k) ∧
      ∀ X, make_features gappyVals goodW ≠ .ok X :=
  ⟨⟨.Housing, by decide, by decide⟩,
    make_features_missing_category gappyVals goodW ⟨.Housing, by decide, by decide⟩⟩

/-- Witness for C9: the concrete prediction's rounded fields. -/
theorem predict_rounding_witness :
    predict sampleArtifacts sampleRecord goodPayload = .ok sampleResult ∧
    computedProba sampleArtifacts sampleRecord goodPayload = .ok (3 / 4) ∧
    computedYhat sampleArtifacts sampleRecord goodPayload = .ok 2 ∧
    (sampleResult.forecast_personal_inflation_pct = roundTo 2 2 ∧
     sampleResult.risk_probability = roundTo (3 / 4) 4 ∧
     sampleResult.threshold = roundTo sampleArtifacts.thr 3) :=
  ⟨sample_predict, sample_proba, sample_yhat,
    predict_rounding sampleArtifacts sampleRecord goodPayload sampleResult (3 / 4) 2
      sample_predict sample_proba sample_yhat⟩

/-- Witness for C10: dropping `Headline` from the sample record. -/
theorem predict_missing_headline_witness :
    predict sampleArtifacts sampleRecord goodPayload = .ok sampleResult ∧
    predict sampleArtifacts ⟨dropKey sampleRecord.vals "Headline", sampleRecord.dateStr⟩
        goodPayload = .ok { sampleResult with latest_headline_cpih_pct := PFloat.nan } :=
  ⟨sample_predict, predict_missing_headline sampleArtifacts sampleRecord goodPayload
      sampleResult sample_predict⟩

end PII
